import Mathlib

/-!
Verification of the WSJT-X to eQSL.cc auto-uploader (`wsjtx2eqsl.py`).

Shallow embedding conventions:
* Python strings are modelled as `List Char`.  `str.lower()` is modelled
  character-wise with `Char.toLower` (the markers the program searches for are
  ASCII, so the ASCII-only lowering is faithful where it matters).
* The regex classes of the ADIF tag pattern are modelled over ASCII:
  word characters as alphanumeric-or-underscore, digits as `Char.isDigit`,
  whitespace as `Char.isWhitespace`.
* Global mutable state (`contact_count`, `recent_contacts`, `last_contact`,
  `upload_status`, `connection_status`, `show_menu`) plus the terminal's
  termios settings are gathered into one record `St`, passed explicitly.
* The HTTP request of `upload_to_eqsl` is external: its outcome is an input
  of the model (`HttpResult`), either a completed response body or a raised
  exception message.  Keystrokes read at the retry overlay are likewise
  inputs; a finite script of `(outcome, key)` pairs drives the retry chain,
  and a retry requested past the end of the script simply ends the run.
* Terminal writes are recorded as a trace of `St` snapshots, one per `print`
  region, so that claims about the pause flag during screen writes can be
  stated.
-/

/-! ### Small string helpers (Python built-ins) -/

/-- Character-wise model of Python `str.lower()`. -/
def toLowerList (s : List Char) : List Char := s.map Char.toLower

/-- Model of Python `str.strip()` with no arguments: remove leading and
trailing whitespace. -/
def pyStrip (s : List Char) : List Char :=
  ((s.dropWhile Char.isWhitespace).reverse.dropWhile Char.isWhitespace).reverse

/-- Model of the Python substring test `needle in hay` (for strings):
`true` iff `needle` occurs contiguously inside `hay`. -/
def containsSub (hay needle : List Char) : Bool :=
  needle.isPrefixOf hay ||
    match hay with
    | [] => false
    | _ :: rest => containsSub rest needle

/-- Model of Python string truthiness combined with `or`:
`a or b` returns `a` unless `a` is `None` or the empty string. -/
def pyOrStr : Option (List Char) → Option (List Char) → Option (List Char)
  | some s, b => if s.isEmpty then b else some s
  | none, b => b

/-! ### Record Parser (`parse_all_adif`, lines 154-165)

The source scans `adif_text` with `re.finditer` for the pattern
`<(\w+):(\d+)>\s*([^<]*)` (IGNORECASE), left to right, each match resuming
where the previous one ended.  Since `:` is not a word character, `>` is not
a digit, and `<` is excluded from the value class, the regex engine's
backtracking search is equivalent to the greedy longest-run scan below. -/

/-- A word character of the regex class used in the tag pattern. -/
def isWordChar (c : Char) : Bool := c.isAlphanum || c == '_'

/-- Python `int` applied to a nonempty string of decimal digits. -/
def digitsToNat (ds : List Char) : Nat :=
  ds.foldl (fun n c => 10 * n + (c.toNat - 48)) 0

/-- Try to match the tag part `<(\w+):(\d+)>` at the head of `s`; on success
return the (raw, not yet lower-cased) field name, the declared length, and
the text following the closing bracket. -/
def tryTag (s : List Char) : Option (List Char × Nat × List Char) :=
  match s with
  | '<' :: r1 =>
    let name := r1.takeWhile isWordChar
    if name.isEmpty then none else
      match r1.dropWhile isWordChar with
      | ':' :: r2 =>
        let ds := r2.takeWhile Char.isDigit
        if ds.isEmpty then none else
          match r2.dropWhile Char.isDigit with
          | '>' :: r3 => some (name, digitsToNat ds, r3)
          | _ => none
      | _ => none
  | _ => none

/-- Whether the tag pattern matches at the very start of `s`. -/
def matchTagAt (s : List Char) : Bool := (tryTag s).isSome

/-- Whether `s` contains, anywhere, one structurally complete
`<name:length>` tag (the claims' notion of a complete tag/value pair). -/
def hasCompleteTag : List Char → Bool
  | [] => false
  | c :: rest => matchTagAt (c :: rest) || hasCompleteTag rest

/-- One finditer scan step, fuelled for structural recursion.  Each loop
iteration consumes at least one character, so fuel equal to the length of
the text (as supplied by `scanAdif`) is never exhausted; `scanAdifGo_fuel`
below proves the fuel is irrelevant beyond that bound.  Produces, for each
match, the lower-cased field name, the declared length, and the raw value
text (group 3: everything after the tag and leading whitespace, up to the
next open bracket). -/
def scanAdifGo : Nat → List Char → List (List Char × Nat × List Char)
  | 0, _ => []
  | _ + 1, [] => []
  | fuel + 1, c :: rest =>
    match tryTag (c :: rest) with
    | some (name, len, afterTag) =>
      let afterWs := afterTag.dropWhile Char.isWhitespace
      let raw := afterWs.takeWhile (fun ch => !(ch == '<'))
      let rest2 := afterWs.dropWhile (fun ch => !(ch == '<'))
      (toLowerList name, len, raw) :: scanAdifGo fuel rest2
    | none => scanAdifGo fuel rest

/-- All matches of the tagged-field pattern in `s`, in order. -/
def scanAdif (s : List Char) : List (List Char × Nat × List Char) :=
  scanAdifGo s.length s

/-- Model of `parse_all_adif` (lines 154-165): for each match, the stored
value is the stripped group-3 text truncated to the declared length
(`value_text[:length] if value_text else ''`; truncating the empty list is
the empty list, so the conditional collapses).  The result list carries the
assignments in match order; `dictGet` below gives them Python-dict lookup
semantics (last assignment to a key wins). -/
def parse_all_adif (s : List Char) : List (List Char × List Char) :=
  (scanAdif s).map (fun e => (e.1, (pyStrip e.2.2).take e.2.1))

/-- Python-dict lookup over the assignment list: the value of the last
assignment to `k`, if any (`fields.get(k)` / `fields[k]`). -/
def dictGet (m : List (List Char × List Char)) (k : List Char) :
    Option (List Char) :=
  (m.reverse.find? (fun p => p.1 == k)).map Prod.snd

/-- Python `fields.get(k, d)`. -/
def dictGetD (m : List (List Char × List Char)) (k d : List Char) :
    List Char :=
  (dictGet m k).getD d

/-! ### Data model: Contact and the shared global state -/

/-- The contact dictionary built by `process_qso` (lines 508-520).  The
capture timestamp (`datetime.now`) is an input of the model. -/
structure Contact where
  call : List Char
  mode : List Char
  band : List Char
  freq : Option (List Char)
  grid : Option (List Char)
  rst_sent : Option (List Char)
  rst_rcvd : Option (List Char)
  qso_date : Option (List Char)
  time_on : Option (List Char)
  comment : Option (List Char)
  timestamp : Nat
deriving DecidableEq

/-- The module-level mutable globals of the script (lines 31-37), plus the
terminal's termios settings (device state read and written via
`termios.tcgetattr` / `tcsetattr` / `tty.setcbreak`), modelled as a `Nat`. -/
structure St where
  contact_count : Nat
  recent_contacts : List Contact
  last_contact : Option Contact
  upload_status : List Char
  connection_status : List Char
  show_menu : Bool
  term_settings : Nat
deriving DecidableEq

/-- Initial global state (lines 31-37); the terminal starts in some
caller-determined settings `s0`. -/
def initSt (s0 : Nat) : St :=
  { contact_count := 0
    recent_contacts := []
    last_contact := none
    upload_status := "Ready".toList
    connection_status := "Listening".toList
    show_menu := false
    term_settings := s0 }

/-- The contact construction of `process_qso` (lines 508-520).  Note the
time field: `fields.get('time_off', None) or fields.get('time_on', None)`,
where Python `or` falls through on `None` and on the empty string. -/
def mkContact (fields : List (List Char × List Char)) (now : Nat) : Contact :=
  { call := dictGetD fields "call".toList "N/A".toList
    mode := dictGetD fields "mode".toList "N/A".toList
    band := dictGetD fields "band".toList "N/A".toList
    freq := dictGet fields "freq".toList
    grid := dictGet fields "gridsquare".toList
    rst_sent := dictGet fields "rst_sent".toList
    rst_rcvd := dictGet fields "rst_rcvd".toList
    qso_date := dictGet fields "qso_date".toList
    time_on := pyOrStr (dictGet fields "time_off".toList)
                       (dictGet fields "time_on".toList)
    comment := dictGet fields "comment".toList
    timestamp := now }

/-- The state mutation of `process_qso` (lines 525-528): increment the
counter, push the contact to the front of the history, truncate the history
to 10 entries, and set the last-contact reference. -/
def storeContact (st : St) (ct : Contact) : St :=
  { st with
    contact_count := st.contact_count + 1
    recent_contacts := (ct :: st.recent_contacts).take 10
    last_contact := some ct }

/-- Processing a sequence of constructed contacts in arrival order. -/
def processContacts (st : St) (cs : List Contact) : St :=
  cs.foldl storeContact st

/-- The parse/construct/store part of `process_qso` (lines 495-528).  The
subsequent upload step (lines 532-538) only touches `upload_status` and the
overlay machinery and is modelled by `upload_to_eqsl_sim` below. -/
def process_qso (st : St) (adif : List Char) (now : Nat) : St :=
  storeContact st (mkContact (parse_all_adif adif) now)

/-! ### Listener structural filter (`listen_udp`, line 843) -/

/-- The acceptance test of line 843:
`'<call:' in message.lower() or ('<' in message and ':' in message and '>' in message)`.
Accepted messages are handed to `process_qso`; everything else is ignored. -/
def listener_accepts (msg : List Char) : Bool :=
  containsSub (toLowerList msg) "<call:".toList ||
    (msg.contains '<' && msg.contains ':' && msg.contains '>')

/-! ### Upload Pipeline (`upload_to_eqsl`, lines 181-234) and
retry overlay (`show_upload_error`, lines 236-277) -/

/-- Outcome of the single `requests.post` call: either a completed response
with a body text, or a raised exception carrying its message. -/
inductive HttpResult where
  | resp (body : List Char)
  | exc (msg : List Char)
deriving DecidableEq

/-- The success classification of lines 208-210:
`'result: 1' in response.text.lower() or 'success' in response.text.lower()`. -/
def classify_response (body : List Char) : Bool :=
  containsSub (toLowerList body) "result: 1".toList ||
    containsSub (toLowerList body) "success".toList

/-- The status string written by the exception handler (line 226):
`f"Error: {str(e)[:20]}"`. -/
def excStatus (msg : List Char) : List Char :=
  "Error: ".toList ++ msg.take 20

/-- Whether the attempt outcome classifies as success at line 210. -/
def httpSuccess : HttpResult → Bool
  | .resp body => classify_response body
  | .exc _ => false

/-- The failure summary `upload_status` is set to when the attempt fails
(line 217 resp. line 226). -/
def failSummary : HttpResult → List Char
  | .resp _ => "Upload Failed".toList
  | .exc m => excStatus m

/-- Status-string effect of one upload attempt (lines 185-226, without the
overlay): set `upload_status` to `"Uploading..."`, then classify the
outcome and set the success or failure status.  Returns the Boolean the
attempt will contribute and the updated state. -/
def uploadAttempt (r : HttpResult) (st : St) : Bool × St :=
  let st1 := { st with upload_status := "Uploading...".toList }
  match r with
  | .resp body =>
    if classify_response body then
      (true, { st1 with upload_status := "Upload OK".toList })
    else
      (false, { st1 with upload_status := "Upload Failed".toList })
  | .exc m => (false, { st1 with upload_status := excStatus m })

/-- The termios state established by `tty.setcbreak` (line 261). -/
def cbreakSettings : Nat := 1

/-- Model of `show_upload_error` (lines 236-277), driven by the key pressed
at this overlay and a script of subsequent `(attempt outcome, key)` pairs
for the retries it may spawn; a retry requested when the script is empty
ends the simulated interaction.  Returns the final state and the trace of
terminal-write snapshots: the error panel (lines 247-258, printed before
`tty.setcbreak`), the retry message (line 267), the writes of any nested
overlay, and the hide-cursor write of the `finally` block (line 277, after
the termios restore of line 274 and the flag clear of line 275).  The body
of the retried `upload_to_eqsl` call (classification plus nested overlay)
is inlined here so that the recursion is structural on the script. -/
def show_error_run (k : Char) (script : List (HttpResult × Char)) (st : St) :
    St × List St :=
  let old := st.term_settings
  let stA := { st with show_menu := true }
  let stB := { stA with term_settings := cbreakSettings }
  let inner :=
    if k.toLower == 'r' then
      match script with
      | [] => (stB, [stB])
      | (r, k2) :: rest =>
        let att := uploadAttempt r stB
        if att.1 then (att.2, [stB])
        else
          let sub := show_error_run k2 rest att.2
          (sub.1, stB :: sub.2)
    else (stB, ([] : List St))
  let stD := { inner.1 with term_settings := old }
  let stE := { stD with show_menu := false }
  (stE, stA :: inner.2 ++ [stE])

/-- Model of one call to `upload_to_eqsl` (lines 181-234): perform the
attempt; on failure enter the retry overlay (`show_upload_error` is invoked
on both failure paths, lines 222 and 233), whose retries are driven by
`script`.  Returns the Boolean result of this call (the value returned to
`process_qso`; a retried upload's result is discarded at line 270, so the
outermost call reports only its own attempt), the final state, and the
trace of overlay terminal writes. -/
def upload_to_eqsl_sim (r : HttpResult) (k : Char)
    (script : List (HttpResult × Char)) (st : St) : Bool × St × List St :=
  let att := uploadAttempt r st
  if att.1 then (true, att.2, [])
  else
    let sub := show_error_run k script att.2
    (false, sub.1, sub.2)

/-! ### Listener startup (`listen_udp`, lines 812-825) -/

/-- Outcome of `sock.bind` at line 817. -/
inductive BindOutcome where
  | ok
  | raised (msg : List Char)
deriving DecidableEq

/-- What the listener thread does next after the bind attempt. -/
inductive ListenerStart where
  | listening
  | systemExit (code : Nat)
deriving DecidableEq

/-- Model of the bind block of `listen_udp` (lines 816-825): on success set
`connection_status` to `"Listening"` and enter the receive loop; on an
exception set `connection_status` to `f"Error: {str(e)[:20]}"` and call
`sys.exit(1)`, i.e. raise `SystemExit` in the listener thread. -/
def listen_udp_start (r : BindOutcome) (st : St) : St × ListenerStart :=
  match r with
  | .ok => ({ st with connection_status := "Listening".toList }, .listening)
  | .raised e =>
    ({ st with connection_status := "Error: ".toList ++ e.take 20 },
     .systemExit 1)

/-! ### Helper lemmas -/

theorem containsSub_iff (hay needle : List Char) :
    containsSub hay needle = true ↔ needle <:+: hay := by
  induction hay with
  | nil => simp [containsSub]
  | cons c rest ih =>
    rw [containsSub, Bool.or_eq_true, ih, List.infix_cons_iff]
    simp

theorem infix_toLower_iff (t body : List Char) :
    t <:+: toLowerList body ↔ ∃ l, l <:+: body ∧ toLowerList l = t := by
  constructor
  · rintro ⟨p, s, h⟩
    have h' : body.map Char.toLower = p ++ t ++ s := h.symm
    obtain ⟨l₁, l₂, hb, hp, _hts⟩ := List.map_eq_append_iff.mp h'
    obtain ⟨a, b, hl₁, _hpa, htb⟩ := List.map_eq_append_iff.mp hp
    refine ⟨b, ⟨a, l₂, ?_⟩, htb⟩
    rw [hb, hl₁]
  · rintro ⟨l, hl, rfl⟩
    exact List.IsInfix.map Char.toLower hl

/-- The spec-side notion of case-insensitive substring containment: some
contiguous piece of `body` lowers to exactly `pat`. -/
def containsCaseInsensitive (body pat : List Char) : Prop :=
  ∃ l, l <:+: body ∧ toLowerList l = pat

theorem classify_response_iff (body : List Char) :
    classify_response body = true ↔
      containsCaseInsensitive body "result: 1".toList ∨
      containsCaseInsensitive body "success".toList := by
  unfold classify_response containsCaseInsensitive
  rw [Bool.or_eq_true, containsSub_iff, containsSub_iff,
    infix_toLower_iff, infix_toLower_iff]

theorem tryTag_mem {s : List Char} {v : List Char × Nat × List Char}
    (h : tryTag s = some v) : '<' ∈ s ∧ ':' ∈ s ∧ '>' ∈ s := by
  unfold tryTag at h
  split at h
  · rename_i r1
    split at h
    · rename_i r2 heq1
      split at h
      · rename_i r3 heq2
        have hcolon : ':' ∈ r1 := by
          have hmem : ':' ∈ r1.dropWhile isWordChar := by
            rw [heq1]; exact List.mem_cons_self _ _
          exact (List.dropWhile_sublist _).mem hmem
        have hgt : '>' ∈ r1 := by
          have h1 : '>' ∈ r2.dropWhile Char.isDigit := by
            rw [heq2]; exact List.mem_cons_self _ _
          have h2 : '>' ∈ (':' :: r2) :=
            List.mem_cons_of_mem _ ((List.dropWhile_sublist _).mem h1)
          rw [← heq1] at h2
          exact (List.dropWhile_sublist _).mem h2
        exact ⟨List.mem_cons_self _ _, List.mem_cons_of_mem _ hcolon,
          List.mem_cons_of_mem _ hgt⟩
      · simp at h
    · simp at h
  · exact absurd h (by simp)

theorem hasCompleteTag_mem {msg : List Char} (h : hasCompleteTag msg = true) :
    '<' ∈ msg ∧ ':' ∈ msg ∧ '>' ∈ msg := by
  induction msg with
  | nil => simp [hasCompleteTag] at h
  | cons c rest ih =>
    rw [hasCompleteTag, Bool.or_eq_true] at h
    rcases h with h | h
    · rw [matchTagAt, Option.isSome_iff_exists] at h
      obtain ⟨v, hv⟩ := h
      exact tryTag_mem hv
    · obtain ⟨h1, h2, h3⟩ := ih h
      exact ⟨List.mem_cons_of_mem _ h1, List.mem_cons_of_mem _ h2,
        List.mem_cons_of_mem _ h3⟩

theorem scanAdifGo_nil : ∀ (fuel : Nat) (s : List Char),
    hasCompleteTag s = false → scanAdifGo fuel s = [] := by
  intro fuel
  induction fuel with
  | zero => intro s _; rfl
  | succ f ih =>
    intro s hs
    match s with
    | [] => rfl
    | c :: rest =>
      rw [hasCompleteTag, Bool.or_eq_false_iff] at hs
      cases htry : tryTag (c :: rest) with
      | some val =>
        have hmt : matchTagAt (c :: rest) = true := by
          rw [matchTagAt, htry]; rfl
        rw [hmt] at hs
        exact absurd hs.1 (by simp)
      | none =>
        simp only [scanAdifGo, htry]
        exact ih rest hs.2

theorem tryTag_length {s : List Char} {name : List Char} {len : Nat}
    {r3 : List Char} (h : tryTag s = some (name, len, r3)) :
    r3.length < s.length := by
  unfold tryTag at h
  split at h
  · rename_i r1
    split at h
    · rename_i r2 heq1
      split at h
      · rename_i r3' heq2
        have hlen1 : (':' :: r2).length ≤ r1.length := by
          rw [← heq1]; exact (List.dropWhile_sublist _).length_le
        have hlen2 : ('>' :: r3').length ≤ r2.length := by
          rw [← heq2]; exact (List.dropWhile_sublist _).length_le
        have hr3 : r3 = r3' := by
          by_cases hn : (r1.takeWhile isWordChar).isEmpty
          · rw [if_pos hn] at h; exact absurd h (by simp)
          · rw [if_neg hn] at h
            by_cases hd : (r2.takeWhile Char.isDigit).isEmpty
            · rw [if_pos hd] at h; exact absurd h (by simp)
            · rw [if_neg hd] at h
              injection h with h'
              rw [Prod.mk.injEq, Prod.mk.injEq] at h'
              exact h'.2.2.symm
        subst hr3
        simp only [List.length_cons] at hlen1 hlen2 ⊢
        omega
      · exact absurd h (by simp)
    · exact absurd h (by simp)
  · exact absurd h (by simp)

theorem scanAdifGo_fuel (fuel : Nat) : ∀ (s : List Char), s.length ≤ fuel →
    scanAdifGo fuel s = scanAdifGo s.length s := by
  induction fuel using Nat.strong_induction_on with
  | _ fuel ih =>
    match fuel with
    | 0 =>
      intro s hs
      have : s = [] := List.length_eq_zero.mp (Nat.le_zero.mp hs)
      subst this; rfl
    | f + 1 =>
      intro s hs
      match s with
      | [] => rfl
      | c :: rest =>
        have hrest : rest.length ≤ f := by
          simp only [List.length_cons] at hs; omega
        cases htry : tryTag (c :: rest) with
        | none =>
          simp only [scanAdifGo, htry, List.length_cons]
          exact ih f (Nat.lt_succ_self f) rest hrest
        | some val =>
          match val with
          | (name, len, afterTag) =>
            have hafter : afterTag.length < (c :: rest).length :=
              tryTag_length htry
            have hrest2 :
                ((afterTag.dropWhile Char.isWhitespace).dropWhile
                  (fun ch => !(ch == '<'))).length ≤ rest.length := by
              have s1 : List.Sublist
                  ((afterTag.dropWhile Char.isWhitespace).dropWhile
                    (fun ch => !(ch == '<')))
                  (afterTag.dropWhile Char.isWhitespace) :=
                List.dropWhile_sublist _
              have s2 : List.Sublist (afterTag.dropWhile Char.isWhitespace)
                  afterTag :=
                List.dropWhile_sublist _
              have d1 := s1.length_le
              have d2 := s2.length_le
              simp only [List.length_cons] at hafter
              omega
            simp only [scanAdifGo, htry, List.length_cons]
            refine congrArg _ ?_
            calc scanAdifGo f _ = scanAdifGo _ _ :=
                  ih f (Nat.lt_succ_self f) _ (le_trans hrest2 hrest)
              _ = scanAdifGo rest.length _ :=
                  (ih rest.length (Nat.lt_succ_of_le hrest) _ hrest2).symm

theorem take_ten_append (a b : List Contact) :
    (a ++ b.take 10).take 10 = (a ++ b).take 10 := by
  rw [List.take_append_eq_append_take, List.take_append_eq_append_take,
    List.take_take]
  have hmin : min (10 - a.length) 10 = 10 - a.length :=
    Nat.min_eq_left (Nat.sub_le _ _)
  rw [hmin]

theorem processContacts_spec (cs : List Contact) : ∀ (st : St),
    st.recent_contacts.length ≤ 10 →
    (processContacts st cs).contact_count = st.contact_count + cs.length ∧
    (processContacts st cs).recent_contacts =
      (cs.reverse ++ st.recent_contacts).take 10 := by
  induction cs with
  | nil =>
    intro st hst
    refine ⟨rfl, ?_⟩
    simp [processContacts, List.take_of_length_le hst]
  | cons c cs ih =>
    intro st hst
    have hstep : processContacts st (c :: cs) =
        processContacts (storeContact st c) cs := rfl
    have hlen : (storeContact st c).recent_contacts.length ≤ 10 := by
      simp [storeContact]
    obtain ⟨hc, hr⟩ := ih (storeContact st c) hlen
    constructor
    · rw [hstep, hc]
      simp [storeContact]
      omega
    · rw [hstep, hr]
      simp only [storeContact, List.reverse_cons]
      rw [take_ten_append]
      simp [List.append_assoc]

theorem show_error_run_spec (k : Char) (script : List (HttpResult × Char))
    (st : St) :
    (show_error_run k script st).1.show_menu = false ∧
    (show_error_run k script st).1.term_settings = st.term_settings ∧
    (show_error_run k script st).2.head? =
      some { st with show_menu := true } := by
  refine ⟨?_, ?_, ?_⟩
  · rw [show_error_run.eq_def]
  · rw [show_error_run.eq_def]
  · rw [show_error_run.eq_def]
    rfl

/-! ### Claims -/

/-- C1: for every HTTP response body, a call to `upload_to_eqsl` whose
request completes with that body classifies the outcome as Success (returns
True) iff the body, compared case-insensitively, contains the substring
"result: 1" or the substring "success"; a body containing neither
classifies as failure (returns False). -/
theorem upload_success_classification (body : List Char) (k : Char)
    (script : List (HttpResult × Char)) (st : St) :
    (upload_to_eqsl_sim (.resp body) k script st).1 = true ↔
      containsCaseInsensitive body "result: 1".toList ∨
      containsCaseInsensitive body "success".toList := by
  have hres : (upload_to_eqsl_sim (.resp body) k script st).1 =
      classify_response body := by
    cases h : classify_response body <;>
      simp [upload_to_eqsl_sim, uploadAttempt, h]
  rw [hres, classify_response_iff]

/-- C2 counterexample: the message "> : <" contains no structurally
complete tag/value pair, yet the filter at line 843 accepts it (the three
characters are each present) and hands it to `process_qso` — so acceptance
does not require a complete tag/value pair. -/
theorem listener_filter_counterexample :
    listener_accepts "> : <".toList = true ∧
    hasCompleteTag "> : <".toList = false := by decide

/-- C2 amended: the Listener's structural filter guarantees acceptance only
in one direction: every text containing a structurally complete
`<name:length>` pair is accepted, but the actual test — the substring
"<call:" in the lowered text, or mere presence of the characters
less-than, colon and greater-than anywhere in the text — also accepts
texts with no complete pair, which are processed rather than silently
discarded. -/
theorem listener_filter_accepts_complete (msg : List Char)
    (h : hasCompleteTag msg = true) : listener_accepts msg = true := by
  obtain ⟨h1, h2, h3⟩ := hasCompleteTag_mem h
  unfold listener_accepts
  rw [Bool.or_eq_true]
  right
  rw [Bool.and_eq_true, Bool.and_eq_true]
  exact ⟨⟨List.elem_eq_true_of_mem h1, List.elem_eq_true_of_mem h2⟩,
    List.elem_eq_true_of_mem h3⟩

/-- C2 amended, witness: a concrete message with a complete pair and
without the "<call:" marker is accepted. -/
theorem listener_filter_accepts_complete_witness :
    listener_accepts "<gridsquare:6>EM12ab".toList = true :=
  listener_filter_accepts_complete _ (by decide)

/-- C3: starting from the initial Session State (counter 0, empty history),
processing any sequence of M accepted records leaves the counter at exactly
M and the history equal to the min(M,10) most recent records newest-first
(for M > 10, exactly the 10 most recent); moreover a single store step
never grows the history past 10 entries and never decreases the counter. -/
theorem qso_counter_history_invariants (cs : List Contact) (s0 : Nat)
    (st : St) (ct : Contact) :
    (processContacts (initSt s0) cs).contact_count = cs.length ∧
    (processContacts (initSt s0) cs).recent_contacts.length =
      min cs.length 10 ∧
    (processContacts (initSt s0) cs).recent_contacts = cs.reverse.take 10 ∧
    (storeContact st ct).recent_contacts.length ≤ 10 ∧
    st.contact_count ≤ (storeContact st ct).contact_count := by
  obtain ⟨hc, hr⟩ := processContacts_spec cs (initSt s0) (by simp [initSt])
  refine ⟨?_, ?_, ?_, ?_, ?_⟩
  · simpa [initSt] using hc
  · rw [hr]
    simp [initSt]
    omega
  · simpa [initSt] using hr
  · simp [storeContact]
  · simp [storeContact]

/-- C4: whenever a matched field's declared length is at least the length
of the (whitespace-stripped) text available after its tag, the parser
stores that available text untruncated and without failing; concretely,
parsing "<call:100>K5JCJ" yields the single entry call = "K5JCJ", and the
record is still accepted by the Listener's filter. -/
theorem truncation_safety :
    (∀ (s name : List Char) (len : Nat) (raw : List Char),
        (name, len, raw) ∈ scanAdif s → (pyStrip raw).length ≤ len →
        (name, pyStrip raw) ∈ parse_all_adif s) ∧
    parse_all_adif "<call:100>K5JCJ".toList =
      [("call".toList, "K5JCJ".toList)] ∧
    listener_accepts "<call:100>K5JCJ".toList = true := by
  refine ⟨?_, by decide, by decide⟩
  intro s name len raw hmem hlen
  have hmap := List.mem_map_of_mem
    (fun e : List Char × Nat × List Char => (e.1, (pyStrip e.2.2).take e.2.1))
    hmem
  simpa [parse_all_adif, List.take_of_length_le hlen] using hmap

/-- C4 witness: the general truncation statement applied at the concrete
over-declared payload. -/
theorem truncation_safety_witness :
    ("call".toList, pyStrip "K5JCJ".toList) ∈
      parse_all_adif "<call:100>K5JCJ".toList :=
  truncation_safety.1 "<call:100>K5JCJ".toList "call".toList 100
    "K5JCJ".toList (by decide) (by decide)

/-- C5: the parser is a total function of its input (it returns a mapping
for every string, by construction), and a string containing no
structurally matching tag contributes no entries at all: the result is the
empty mapping. -/
theorem malformed_input_yields_empty (s : List Char)
    (h : hasCompleteTag s = false) : parse_all_adif s = [] := by
  unfold parse_all_adif scanAdif
  rw [scanAdifGo_nil s.length s h]
  rfl

/-- C5 witness: a malformed, almost-tag payload parses to the empty
mapping. -/
theorem malformed_input_yields_empty_witness :
    parse_all_adif "<call:>x >3< oops".toList = [] :=
  malformed_input_yields_empty _ (by decide)

/-- C6 counterexample: the payload "<time_off:0><time_on:4>1234" parses to
a mapping containing both keys, with time_off bound to the empty string;
the constructed contact's stored time is then "1234" (the time_on value),
not the time_off value, because Python `or` treats the empty string as
false — refuting the claim that the stored time always equals the time_off
value when both fields are present. -/
theorem time_preference_counterexample :
    dictGet (parse_all_adif "<time_off:0><time_on:4>1234".toList)
      "time_off".toList = some [] ∧
    dictGet (parse_all_adif "<time_off:0><time_on:4>1234".toList)
      "time_on".toList = some "1234".toList ∧
    (mkContact (parse_all_adif "<time_off:0><time_on:4>1234".toList)
      0).time_on ≠ some ([] : List Char) := by decide

/-- C6 amended: when the parsed mapping contains both a time_off and a
time_on field, the stored time equals the time_off value provided that
value is non-empty; an empty time_off value falls through to the time_on
value (Python string truthiness in `a or b`). -/
theorem time_preference_amended (fields : List (List Char × List Char))
    (now : Nat) (v w : List Char)
    (hoff : dictGet fields "time_off".toList = some v)
    (hon : dictGet fields "time_on".toList = some w) :
    (mkContact fields now).time_on = some (if v.isEmpty then w else v) := by
  have h1 : (mkContact fields now).time_on = pyOrStr (some v) (some w) := by
    show pyOrStr (dictGet fields "time_off".toList)
      (dictGet fields "time_on".toList) = pyOrStr (some v) (some w)
    rw [hoff, hon]
  rw [h1]
  cases hv : v.isEmpty <;> simp [pyOrStr, hv]

/-- C6 amended, witness: with both fields present and time_off non-empty,
the stored time is the time_off value. -/
theorem time_preference_amended_witness :
    (mkContact [("time_off".toList, "0934".toList),
      ("time_on".toList, "0935".toList)] 0).time_on = some "0934".toList :=
  (time_preference_amended
    [("time_off".toList, "0934".toList), ("time_on".toList, "0935".toList)]
    0 "0934".toList "0935".toList (by decide) (by decide)).trans (by decide)

/-- Helper for C7: on a failed attempt, the call returns False and enters
the overlay with the upload-status already set to the failure summary. -/
theorem upload_sim_fail (r : HttpResult) (k : Char)
    (script : List (HttpResult × Char)) (st : St)
    (h : httpSuccess r = false) :
    upload_to_eqsl_sim r k script st =
      (false,
        show_error_run k script { st with upload_status := failSummary r }) := by
  cases r with
  | resp body =>
    have hc : classify_response body = false := by simpa [httpSuccess] using h
    simp [upload_to_eqsl_sim, uploadAttempt, hc, failSummary]
  | exc m =>
    simp [upload_to_eqsl_sim, uploadAttempt, failSummary]

/-- Helper for C7: on a successful attempt, the call returns True at once,
with no overlay writes. -/
theorem upload_sim_success (r : HttpResult) (k : Char)
    (script : List (HttpResult × Char)) (st : St)
    (h : httpSuccess r = true) :
    upload_to_eqsl_sim r k script st =
      (true, { st with upload_status := "Upload OK".toList }, []) := by
  cases r with
  | resp body =>
    have hc : classify_response body = true := by simpa [httpSuccess] using h
    simp [upload_to_eqsl_sim, uploadAttempt, hc]
  | exc m => simp [httpSuccess] at h

/-- C7: `upload_to_eqsl` never propagates an exception to its caller: for
every attempt outcome (a completed response or a raised transport
exception) and every retry interaction, the call returns an ordinary
Boolean — False exactly when the attempt did not classify as success — and
on every failure the retry overlay is entered with the upload-status
string already set to the matching failure summary ("Upload Failed" for a
rejected response, "Error: " plus the truncated exception text for a
transport failure). -/
theorem upload_never_throws (r : HttpResult) (k : Char)
    (script : List (HttpResult × Char)) (st : St) :
    (upload_to_eqsl_sim r k script st).1 = httpSuccess r ∧
    (httpSuccess r = false →
      (upload_to_eqsl_sim r k script st).2.2 ≠ [] ∧
      ((upload_to_eqsl_sim r k script st).2.2.head?).map St.upload_status =
        some (failSummary r)) := by
  cases hs : httpSuccess r with
  | true =>
    refine ⟨?_, fun hf => absurd hf (by simp)⟩
    rw [upload_sim_success r k script st hs]
  | false =>
    rw [upload_sim_fail r k script st hs]
    refine ⟨by simp, fun _ => ⟨?_, ?_⟩⟩
    · have hh := (show_error_run_spec k script
        { st with upload_status := failSummary r }).2.2
      intro hnil
      rw [hnil] at hh
      exact Option.noConfusion hh
    · have hh := (show_error_run_spec k script
        { st with upload_status := failSummary r }).2.2
      rw [hh]
      rfl

/-- C7 witness: the upload call at a concrete transport failure returns
False with the failure summary shown at overlay entry. -/
theorem upload_never_throws_witness :
    (upload_to_eqsl_sim (.exc "boom".toList) 'x' [] (initSt 0)).1 = false ∧
    ((upload_to_eqsl_sim (.exc "boom".toList) 'x' []
      (initSt 0)).2.2.head?).map St.upload_status =
      some (failSummary (.exc "boom".toList)) := by
  have h := upload_never_throws (.exc "boom".toList) 'x' [] (initSt 0)
  exact ⟨h.1, (h.2 (by decide)).2⟩

/-- C8 counterexample: concrete run refuting "the flag is set (True) for
the whole duration of the overlay's terminal ownership": the first attempt
fails, the user presses R, the retried attempt fails again, and the user
dismisses.  The inner overlay's `finally` block (lines 274-277) clears
`show_menu` and then prints its hide-cursor write while the outer
`show_upload_error` still holds the terminal in cbreak mode and has not
yet restored the saved settings — a terminal write during overlay
ownership with the Pause Flag cleared. -/
theorem overlay_pause_flag_counterexample :
    ((show_error_run 'r' [(.exc "x".toList, 'x')] (initSt 0)).2.any
      (fun ev => !ev.show_menu && ev.term_settings == cbreakSettings)) =
      true := by decide

/-- C8 amended: for every key pressed at the retry overlay,
`show_upload_error` on return clears the Pause Flag and restores the
terminal settings saved at entry, on both the dismiss path and the retry
path (to any depth of retries); but the flag is not set for the entire
duration of the overlay's terminal ownership: a nested retry overlay's
cleanup clears the flag (and writes to the terminal) before the outer
overlay has restored the terminal. -/
theorem overlay_restores_on_return (k : Char)
    (script : List (HttpResult × Char)) (st : St) :
    (show_error_run k script st).1.show_menu = false ∧
    (show_error_run k script st).1.term_settings = st.term_settings :=
  ⟨(show_error_run_spec k script st).1, (show_error_run_spec k script st).2.1⟩

/-- C9: model evaluation at the failing input: on a bind exception the
listener records the cause in `connection_status` ("Error: " plus the
truncated exception text) and then executes `sys.exit(1)`, i.e. raises
`SystemExit`.  In the script this code runs inside a daemon thread started
by `main`, where raising `SystemExit` ends only that thread, so the
process itself keeps running — the code does not deliver the fatal
termination the claim describes. -/
theorem bind_failure_effect (e : List Char) (st : St) :
    listen_udp_start (.raised e) st =
      ({ st with connection_status := "Error: ".toList ++ e.take 20 },
        .systemExit 1) := rfl

/-- C10: every message passing the Listener's filter is processed even if
the parsed mapping lacks the call, mode, or band key: each missing one of
those three fields is stored as the literal "N/A", and the processing step
still increments the contact counter, pushes the new record to the front
of the history, and sets the last-contact reference. -/
theorem missing_fields_default (msg : List Char) (st : St) (now : Nat)
    (_hacc : listener_accepts msg = true) :
    (dictGet (parse_all_adif msg) "call".toList = none →
      (mkContact (parse_all_adif msg) now).call = "N/A".toList) ∧
    (dictGet (parse_all_adif msg) "mode".toList = none →
      (mkContact (parse_all_adif msg) now).mode = "N/A".toList) ∧
    (dictGet (parse_all_adif msg) "band".toList = none →
      (mkContact (parse_all_adif msg) now).band = "N/A".toList) ∧
    (process_qso st msg now).contact_count = st.contact_count + 1 ∧
    (process_qso st msg now).recent_contacts.head? =
      some (mkContact (parse_all_adif msg) now) ∧
    (process_qso st msg now).last_contact =
      some (mkContact (parse_all_adif msg) now) := by
  refine ⟨?_, ?_, ?_, rfl, ?_, rfl⟩
  · intro h
    show dictGetD (parse_all_adif msg) "call".toList "N/A".toList = _
    rw [dictGetD, h]
    rfl
  · intro h
    show dictGetD (parse_all_adif msg) "mode".toList "N/A".toList = _
    rw [dictGetD, h]
    rfl
  · intro h
    show dictGetD (parse_all_adif msg) "band".toList "N/A".toList = _
    rw [dictGetD, h]
    rfl
  · show ((mkContact (parse_all_adif msg) now ::
      st.recent_contacts).take 10).head? = _
    rw [List.take_succ_cons, List.head?_cons]

/-- C10 witness: a concrete accepted message carrying only a grid square
is stored with call/mode/band defaulted to "N/A" and counted. -/
theorem missing_fields_default_witness :
    (mkContact (parse_all_adif "<gridsquare:6>EM12ab".toList) 0).call =
      "N/A".toList ∧
    (process_qso (initSt 0) "<gridsquare:6>EM12ab".toList 0).contact_count =
      1 := by
  have h := missing_fields_default "<gridsquare:6>EM12ab".toList (initSt 0) 0
    (by decide)
  exact ⟨h.1 (by decide), h.2.2.2.1⟩
